import Mathlib

/-!
Verification of `aten/src/ATen/cuda/tunable/TunableGemm.h` (TunableOp GEMM
autotuning): a shallow embedding of the definitions of the header — `IsZero`,
`TypeName`, the constructor registrations of `GemmTunableOp`, `PreTuning`,
`PostTuning` and `Signature` — together with theorems settling the claims of the spec
 about them.
-/

namespace TunableGemm

/-- Model of a finite IEEE-754 floating-point datum: its sign bit together
with the (nonnegative) magnitude of its numeric value.  This distinguishes
`-0.0` (sign set, magnitude 0) from `+0.0` (sign clear, magnitude 0) at the
bit level, while the two compare numerically equal.  NaN and infinities are
not represented; neither compares equal to zero, so they are irrelevant to
the zero tests below. -/
structure FP where
  sign : Bool
  mag : ℚ
  deriving DecidableEq, Repr

/-- The numeric value an `FP` datum denotes. -/
def FP.val (f : FP) : ℚ := if f.sign then -f.mag else f.mag

/-- Positive zero (`+0.0`, the all-zero bit pattern). -/
def FP.posZero : FP := ⟨false, 0⟩

/-- Negative zero (`-0.0`: sign bit set, magnitude zero). -/
def FP.negZero : FP := ⟨true, 0⟩

/-- IEEE numeric equality on finite values: `a == b` compares the numeric
values (so `-0.0 == +0.0` holds). -/
def ieeeEq (a b : FP) : Bool := decide (a.val = b.val)

/-- A value of one of the element types `GemmTunableOp` is instantiated at.
The six specialized types of `TunableGemm.h` are listed; `other` stands for
a value of any further numeric type, which the primary template handles. -/
inductive CValue where
  | float (v : FP)
  | double (v : FP)
  | bfloat16 (v : FP)
  | half (v : FP)
  | complexFloat (re im : FP)
  | complexDouble (re im : FP)
  | other (v : ℚ)
  deriving DecidableEq, Repr

/-- `IsZero` from `TunableGemm.h` (lines 46-69).
* primary template (`float`, `double`, `other`): `return v == 0.0f;` —
  IEEE numeric comparison against zero;
* `BFloat16`: `return v.x == 0;` — `x` is the raw 16-bit pattern, so this
  holds only for positive zero (sign clear, magnitude 0);
* `Half`: `return float(v) == 0.0f;` — half-to-float conversion is exact
  and preserves the numeric value, so this is a numeric comparison;
* `c10::complex<float>` / `c10::complex<double>`: `return v == 0.0f;`
  (resp. `0.0`) — componentwise IEEE comparison of real and imaginary
  parts against zero. -/
def IsZero : CValue → Bool
  | .float v => ieeeEq v FP.posZero
  | .double v => ieeeEq v FP.posZero
  | .bfloat16 v => !v.sign && decide (v.mag = 0)
  | .half v => ieeeEq v FP.posZero
  | .complexFloat re im => ieeeEq re FP.posZero && ieeeEq im FP.posZero
  | .complexDouble re im => ieeeEq re FP.posZero && ieeeEq im FP.posZero
  | .other v => decide (v = 0)

/-- Spec-side definition, following the words of the spec for comparison with
`IsZero`: the value compares numerically equal to zero (for a complex
value, both components are numerically zero).  In particular negative zero
is numerically zero. -/
def numericallyZero : CValue → Bool
  | .float v => decide (v.val = 0)
  | .double v => decide (v.val = 0)
  | .bfloat16 v => decide (v.val = 0)
  | .half v => decide (v.val = 0)
  | .complexFloat re im => decide (re.val = 0) && decide (im.val = 0)
  | .complexDouble re im => decide (re.val = 0) && decide (im.val = 0)
  | .other v => decide (v = 0)

/-- Whether a value is the BFloat16 negative-zero datum (numerically zero,
but with a nonzero bit pattern). -/
def isBF16NegZero : CValue → Bool
  | .bfloat16 v => v.sign && decide (v.mag = 0)
  | _ => false

/-- The element type `T` a `GemmTunableOp<T, ALayout, BLayout>` is
instantiated at.  The six types with `TypeName`/`IsZero` specializations
are listed; `other i` stands for any further type (distinct `i` model
distinct C++ types), which the primary templates handle. -/
inductive ElemType where
  | float
  | double
  | bfloat16
  | half
  | complexFloat
  | complexDouble
  | other (id : ℕ)
  deriving DecidableEq, Repr

/-- `TypeName` from `TunableGemm.h` (lines 71-104): the primary template
returns `"unknown"`; each of the six specializations returns the shown
literal.  (The C++ function takes a dummy value argument `T{}`, which it
ignores; the result depends only on the type.) -/
def TypeName : ElemType → String
  | .float => "float"
  | .double => "double"
  | .bfloat16 => "BFloat16"
  | .half => "Half"
  | .complexFloat => "c10::complex<float>"
  | .complexDouble => "c10::complex<double>"
  | .other _ => "unknown"

/-- Whether `T` is one of the two `c10::complex` types (the `if constexpr` test of the constructor that disallows hipblaslt candidates). -/
def ElemType.isComplex : ElemType → Bool
  | .complexFloat => true
  | .complexDouble => true
  | _ => false

/-- Modelled from the spec: the transpose/layout flag of one operand
(`BlasOp`, defined in `TunableOp.h`, which is not part of the shown
fragment): `N` (not transposed) or `T` (transposed). -/
inductive BlasOp where
  | N
  | T
  deriving DecidableEq, Repr

/-- Modelled from the spec: `BlasOpToString` (defined outside the shown
fragment) renders a layout flag as the one-character string used inside
signatures. -/
def BlasOpToString : BlasOp → String
  | .N => "N"
  | .T => "T"

/-- `GemmTunableOp::Signature` (lines 190-192):
`c10::str("GemmTunableOp_", TypeName<T>(T{}), "_", BlasOpToString(ALayout),
BlasOpToString(BLayout))`.  It is a method of the op class: it depends only
on the template arguments `T`, `ALayout`, `BLayout`. -/
def Signature (T : ElemType) (ALayout BLayout : BlasOp) : String :=
  "GemmTunableOp_" ++ TypeName T ++ "_" ++ BlasOpToString ALayout ++ BlasOpToString BLayout

/-- `GemmParams<T>` (from `GemmCommon.h`, mirrored here with the fields
`DefaultGemmOp`, `PreTuning` and `PostTuning` read: transpose chars,
dimensions, scalar coefficients, buffer addresses and leading dimensions).
Device pointers are modelled as abstract addresses (`ℕ`). -/
structure GemmParams where
  transa : Char
  transb : Char
  m : ℤ
  n : ℤ
  k : ℤ
  alpha : CValue
  a : ℕ
  lda : ℤ
  b : ℕ
  ldb : ℤ
  beta : CValue
  c : ℕ
  ldc : ℤ
  deriving DecidableEq, Repr

/-- State of the caching allocator together with the count of live proxy
`GemmParams` objects.  Addresses are issued by a monotone counter `next`,
so an address returned by an allocation is distinct from every address
issued before; `blocks` records the live allocations (address, size in
bytes). -/
structure AllocState where
  next : ℕ
  blocks : List (ℕ × ℤ)
  objs : ℕ
  deriving DecidableEq, Repr

/-- `c10::cuda::CUDACachingAllocator::raw_alloc`: returns a fresh address
and records the block. -/
def rawAlloc (nbytes : ℤ) (st : AllocState) : ℕ × AllocState :=
  (st.next, ⟨st.next + 1, (st.next, nbytes) :: st.blocks, st.objs⟩)

/-- `raw_delete`: removes the block at the given address. -/
def rawDelete (addr : ℕ) (st : AllocState) : AllocState :=
  { st with blocks := st.blocks.filter (fun blk => blk.1 != addr) }

/-- Well-formedness of an allocator state: the address of every live block was
issued by the counter, i.e. is below `next`. -/
def AllocState.WF (st : AllocState) : Prop :=
  ∀ blk ∈ st.blocks, blk.1 < st.next

/-- The byte count `PreTuning` passes to `raw_alloc` (line 176):
`proxy->m * proxy->ldc * sizeof(T)`. -/
def preTuningAllocBytes (sizeofT : ℕ) (p : GemmParams) : ℤ :=
  p.m * p.ldc * (sizeofT : ℤ)

/-- The number of elements required to hold every entry of the `m`-by-`n`
output matrix laid out column-major with leading dimension `ldc` (the
layout `at::cuda::blas::gemm_internal` — a cuBLAS-convention GEMM — writes
through `c`): entry `(i, j)` lives at offset `j * ldc + i`, so offsets run
up to `ldc * (n - 1) + (m - 1)`. -/
def outputExtentElems (p : GemmParams) : ℤ :=
  p.ldc * (p.n - 1) + p.m

/-- `GemmTunableOp::PreTuning` (lines 165-181).  When `beta` is nonzero, a
proxy `GemmParams` is heap-allocated (`objs` is incremented), copied
fieldwise from `params`, and its `c` is redirected to a freshly
`raw_alloc`ed scratch buffer of `m * ldc * sizeof(T)` bytes; otherwise the
original params are returned and the state is untouched. -/
def PreTuning (sizeofT : ℕ) (params : GemmParams) (st : AllocState) :
    GemmParams × AllocState :=
  if !IsZero params.beta then
    let st0 : AllocState := { st with objs := st.objs + 1 }
    let res := rawAlloc (preTuningAllocBytes sizeofT params) st0
    ({ params with c := res.1 }, res.2)
  else
    (params, st)

/-- `GemmTunableOp::PostTuning` (lines 183-188).  When the `beta` of the passed
params is nonzero, the buffer at `params->c` is `raw_delete`d and the
params object itself is `delete`d (`objs` is decremented); otherwise
nothing happens. -/
def PostTuning (params : GemmParams) (st : AllocState) : AllocState :=
  if !IsZero params.beta then
    { rawDelete params.c st with objs := st.objs - 1 }
  else
    st

/-- The signature `GemmTunableOp<T, ALayout, BLayout>` yields for a call
with a given parameter set.  `Signature` is an override on the op class
(line 190) and takes no arguments: it depends only on the template
arguments and ignores the parameter set entirely. -/
def signatureForParams (T : ElemType) (ALayout BLayout : BlasOp)
    (params : GemmParams) : String :=
  Signature T ALayout BLayout

/-- A concrete small GEMM parameter set: m = 1, n = 2, k = 1, unit leading
dimensions (valid: `ldc = 1 ≥ m = 1`), β = 1.0 (nonzero, accumulating). -/
def gemmParamsSmall : GemmParams :=
  { transa := 'N', transb := 'N', m := 1, n := 2, k := 1
    alpha := CValue.float ⟨false, 1⟩, a := 100, lda := 1, b := 200, ldb := 1
    beta := CValue.float ⟨false, 1⟩, c := 300, ldc := 1 }

/-- `TuningStatus` (from `TunableOp.h`, outside the shown fragment): the
status a candidate or a validator predicate returns. -/
inductive TuningStatus where
  | OK
  | FAIL
  | UNSUPPORTED
  deriving DecidableEq, Repr

/-- Modelled from the spec: `TunableOp::RegisterOp` (defined in
`TunableOp.h`, not part of the shown fragment) appends the named candidate
to the registry, which therefore lists candidates in registration order. -/
def RegisterOp {α : Type} (name : String) (op : α) (reg : List (String × α)) :
    List (String × α) :=
  reg ++ [(name, op)]

/-- Register each (name, op) pair of the list of one backend in order. -/
def registerAll {α : Type} (ops : List (String × α)) (reg : List (String × α)) :
    List (String × α) :=
  ops.foldl (fun acc nameOp => RegisterOp nameOp.1 nameOp.2 acc) reg

/-- The candidate registry the `GemmTunableOp<T, ALayout, BLayout>`
constructor builds (lines 110-163, in the ROCm ≥ 5.7 configuration the
header compiles under): starting from the empty registry of a
freshly-constructed `TunableOp`, it registers `"Default"` bound to
`DefaultGemmOp<T>` first, then every rocBLAS candidate, then — unless `T`
is a `c10::complex` type — every hipBLASLt candidate.  The backend
candidate lists (produced by `GetRocBlasGemmTypeStringAndOps` /
`GetHipBlasLtGemmTypeStringAndOps`, outside the shown fragment) and the
candidate type are parameters. -/
def gemmTunableOpRegistry {α : Type} (T : ElemType) (defaultGemmOp : α)
    (rocblasOps hipblasltOps : List (String × α)) : List (String × α) :=
  let reg := RegisterOp "Default" defaultGemmOp ([] : List (String × α))
  let reg := registerAll rocblasOps reg
  if T.isComplex then reg else registerAll hipblasltOps reg

/-- A validator entry: the value producer and the compatibility predicate
registered for one key. -/
structure ValidatorEntry where
  producer : Unit → String
  check : String → TuningStatus

/-- The validator map, in registration order. -/
abbrev ValidatorMap := List (String × ValidatorEntry)

/-- Whether a key is registered (the test
`validators.find(key) == validators.end()` of the constructor, negated). -/
def hasKey (m : ValidatorMap) (key : String) : Bool :=
  m.any (fun kv => kv.1 == key)

/-- Look up the entry registered for a key. -/
def findEntry (key : String) (m : ValidatorMap) : Option ValidatorEntry :=
  (m.find? (fun kv => kv.1 == key)).map (fun kv => kv.2)

/-- Modelled from the spec: `RegisterValidator` (defined outside the shown
fragment) records the entry under the key; first registration for a key
wins, a later registration for the same key is ignored. -/
def RegisterValidator (key : String) (entry : ValidatorEntry) (m : ValidatorMap) :
    ValidatorMap :=
  if hasKey m key then m else m ++ [(key, entry)]

/-- The validator entry the constructor registers for a version key: both
lambdas capture the version string by value, so the producer returns that
same captured string on every call, and the predicate is
`version == k ? OK : FAIL` — exact string match (lines 120-137 and
151-160). -/
def mkVersionValidator (version : String) : ValidatorEntry :=
  { producer := fun _ => version
    check := fun k => if version == k then TuningStatus.OK else TuningStatus.FAIL }

/-- One conditional registration of the constructor: the key is looked up
in the `validators` snapshot (`validators.find(key) == validators.end()`),
and only if absent there is `RegisterValidator` invoked on the current
map. -/
def registerIfAbsentInSnapshot (key : String) (entry : ValidatorEntry)
    (snapshot m : ValidatorMap) : ValidatorMap :=
  if hasKey snapshot key then m else RegisterValidator key entry m

/-- The validator registrations the `GemmTunableOp` constructor performs
(lines 113-161, ROCm ≥ 5.7 configuration): the validator map is snapshotted
once (`GetAllValidators()`, line 113), and for each of the keys
`"ROCM_VERSION"`, `"ROCBLAS_VERSION"`, `"HIPBLASLT_VERSION"` an exact-match
version validator is registered only if the snapshot lacks that key.  The
three version strings are build-time constants, taken here as
parameters. -/
def ctorRegisterValidators (rocmVer rocblasVer hipblasltVer : String)
    (m : ValidatorMap) : ValidatorMap :=
  registerIfAbsentInSnapshot "HIPBLASLT_VERSION" (mkVersionValidator hipblasltVer) m
    (registerIfAbsentInSnapshot "ROCBLAS_VERSION" (mkVersionValidator rocblasVer) m
      (registerIfAbsentInSnapshot "ROCM_VERSION" (mkVersionValidator rocmVer) m m))

/-! ## Theorems -/

theorem registerAll_eq {α : Type} (ops reg : List (String × α)) :
    registerAll ops reg = reg ++ ops := by
  induction ops generalizing reg with
  | nil => simp [registerAll]
  | cons hd tl ih =>
    show registerAll tl (RegisterOp hd.1 hd.2 reg) = reg ++ hd :: tl
    rw [ih, RegisterOp]
    simp

theorem typeName_cases (t : ElemType) :
    TypeName t = "float" ∨ TypeName t = "double" ∨ TypeName t = "BFloat16" ∨
    TypeName t = "Half" ∨ TypeName t = "c10::complex<float>" ∨
    TypeName t = "c10::complex<double>" ∨ TypeName t = "unknown" := by
  cases t <;> simp [TypeName]

/-- C6 counterexample: the BFloat16 negative-zero datum (`v.x = 0x8000`)
compares numerically equal to zero, but `IsZero` — which for BFloat16 tests
the raw bit pattern `v.x == 0` — classifies it as nonzero. -/
theorem isZero_bf16_negZero_counterexample :
    IsZero (CValue.bfloat16 FP.negZero) = false ∧
    numericallyZero (CValue.bfloat16 FP.negZero) = true := by
  constructor <;> decide

/-- C6 amended: `IsZero v` holds iff `v` is numerically zero **and** `v` is
not the BFloat16 negative-zero datum.  For float, double, Half and the two
complex types `IsZero` is exactly numerical equality with zero (negative
zero counts as zero); the BFloat16 specialization compares the raw bit
pattern, so BFloat16 `-0.0` alone is classified as nonzero
(accumulating). -/
theorem isZero_eq_numericallyZero_except_bf16_negZero (v : CValue) :
    IsZero v = (numericallyZero v && !isBF16NegZero v) := by
  cases v with
  | bfloat16 f =>
    obtain ⟨s, q⟩ := f
    rcases eq_or_ne q 0 with hq | hq <;>
      cases s <;>
      simp [IsZero, numericallyZero, isBF16NegZero, FP.val, hq]
  | float f => simp [IsZero, numericallyZero, isBF16NegZero, ieeeEq, FP.posZero, FP.val]
  | double f => simp [IsZero, numericallyZero, isBF16NegZero, ieeeEq, FP.posZero, FP.val]
  | half f => simp [IsZero, numericallyZero, isBF16NegZero, ieeeEq, FP.posZero, FP.val]
  | complexFloat re im =>
    simp [IsZero, numericallyZero, isBF16NegZero, ieeeEq, FP.posZero, FP.val]
  | complexDouble re im =>
    simp [IsZero, numericallyZero, isBF16NegZero, ieeeEq, FP.posZero, FP.val]
  | other q => simp [IsZero, numericallyZero, isBF16NegZero]

/-- C10: `TypeName` at any type without an explicit specialization returns
`"unknown"`, so two `GemmTunableOp` instantiations at two distinct
unsupported element types with the same layouts produce identical
`Signature` strings. -/
theorem typeName_unknown_signature_collision (i j : ℕ) (AL BL : BlasOp)
    (hij : i ≠ j) :
    TypeName (ElemType.other i) = "unknown" ∧
    ElemType.other i ≠ ElemType.other j ∧
    Signature (ElemType.other i) AL BL = Signature (ElemType.other j) AL BL := by
  refine ⟨rfl, ?_, rfl⟩
  simp [hij]

theorem typeName_unknown_signature_collision_witness :
    TypeName (ElemType.other 0) = "unknown" ∧
    ElemType.other 0 ≠ ElemType.other 1 ∧
    Signature (ElemType.other 0) BlasOp.N BlasOp.T =
      Signature (ElemType.other 1) BlasOp.N BlasOp.T :=
  typeName_unknown_signature_collision 0 1 BlasOp.N BlasOp.T (by decide)

/-- C7: the constructor registers the candidate named `"Default"` (bound to
`DefaultGemmOp<T>`) first, before any backend candidate: for every
instantiation and any backend candidate lists, the first entry of the
registry in registration order is `("Default", defaultGemmOp)`. -/
theorem default_registered_first {α : Type} (T : ElemType) (defaultGemmOp : α)
    (rocblasOps hipblasltOps : List (String × α)) :
    (gemmTunableOpRegistry T defaultGemmOp rocblasOps hipblasltOps).head? =
      some ("Default", defaultGemmOp) := by
  unfold gemmTunableOpRegistry
  cases hT : T.isComplex <;> simp [registerAll_eq, RegisterOp]

/-- C4: for a parameter set whose `beta` is zero, `PreTuning` returns the
original parameters unchanged with no allocation (allocator state and proxy
object count untouched), and `PostTuning` on that result frees nothing and
changes nothing. -/
theorem preTuning_postTuning_noop_when_beta_zero (sizeofT : ℕ)
    (p : GemmParams) (st : AllocState) (hbeta : IsZero p.beta = true) :
    PreTuning sizeofT p st = (p, st) ∧
    PostTuning (PreTuning sizeofT p st).1 (PreTuning sizeofT p st).2 = st := by
  simp [PreTuning, PostTuning, hbeta]

theorem preTuning_postTuning_noop_when_beta_zero_witness :
    PreTuning 4 { gemmParamsSmall with beta := CValue.float FP.posZero }
        { next := 1, blocks := [(0, 8)], objs := 0 } =
      ({ gemmParamsSmall with beta := CValue.float FP.posZero },
        { next := 1, blocks := [(0, 8)], objs := 0 }) ∧
    PostTuning
        (PreTuning 4 { gemmParamsSmall with beta := CValue.float FP.posZero }
          { next := 1, blocks := [(0, 8)], objs := 0 }).1
        (PreTuning 4 { gemmParamsSmall with beta := CValue.float FP.posZero }
          { next := 1, blocks := [(0, 8)], objs := 0 }).2 =
      { next := 1, blocks := [(0, 8)], objs := 0 } :=
  preTuning_postTuning_noop_when_beta_zero 4
    { gemmParamsSmall with beta := CValue.float FP.posZero }
    { next := 1, blocks := [(0, 8)], objs := 0 } (by decide)

/-- C3: on the valid accumulating call `gemmParamsSmall` (m = 1, n = 2,
k = 1, ldc = 1 ≥ m, β ≠ 0) with `sizeof(float) = 4`, `PreTuning` allocates
`m * ldc * sizeof(T)` = 4 bytes of scratch and records a block of that
size, while the column-major 1×2 output matrix with leading dimension 1
spans `ldc*(n-1)+m` = 2 elements = 8 bytes: the scratch buffer is strictly
smaller than the real output extent and cannot hold every output
element. -/
theorem preTuning_scratch_undersized :
    preTuningAllocBytes 4 gemmParamsSmall = 4 ∧
    outputExtentElems gemmParamsSmall = 2 ∧
    preTuningAllocBytes 4 gemmParamsSmall < 4 * outputExtentElems gemmParamsSmall ∧
    (PreTuning 4 gemmParamsSmall { next := 1, blocks := [], objs := 0 }).2.blocks =
      [((PreTuning 4 gemmParamsSmall { next := 1, blocks := [], objs := 0 }).1.c, 4)] := by
  refine ⟨by decide, by decide, by decide, by decide⟩

/-- C1 counterexample: two parameter sets that differ in the dimension `m`
(1 versus 2) and agree everywhere else produce the **same**
`GemmTunableOp::Signature` string — refuting the claim that any single
differing dimension yields distinct signatures. -/
theorem signature_dimension_collision :
    gemmParamsSmall.m ≠ ({ gemmParamsSmall with m := 2 } : GemmParams).m ∧
    signatureForParams ElemType.float BlasOp.N BlasOp.N gemmParamsSmall =
      signatureForParams ElemType.float BlasOp.N BlasOp.N
        { gemmParamsSmall with m := 2 } :=
  ⟨by decide, rfl⟩

/-- C1 amended: `GemmTunableOp::Signature` ignores the parameter set
entirely — any two parameter sets for the same instantiation get the same
string, whatever their dimensions — and the string discriminates exactly
the type name and the two layout flags: two instantiations share a
signature iff they have the same `TypeName` and the same layouts. -/
theorem signature_discriminates_type_and_layout_only :
    (∀ (T : ElemType) (AL BL : BlasOp) (p q : GemmParams),
      signatureForParams T AL BL p = signatureForParams T AL BL q) ∧
    (∀ (T T' : ElemType) (AL AL' BL BL' : BlasOp),
      Signature T AL BL = Signature T' AL' BL' ↔
        (TypeName T = TypeName T' ∧ AL = AL' ∧ BL = BL')) := by
  constructor
  · intro T AL BL p q
    rfl
  · intro T T' AL AL' BL BL'
    constructor
    · intro h
      simp only [Signature] at h
      rcases typeName_cases T with h1|h1|h1|h1|h1|h1|h1 <;>
        rcases typeName_cases T' with h2|h2|h2|h2|h2|h2|h2 <;>
        rw [h1, h2] at h <;>
        cases AL <;> cases AL' <;> cases BL <;> cases BL' <;>
        first
          | exact ⟨h1.trans h2.symm, rfl, rfl⟩
          | exact absurd h (by decide)
    · rintro ⟨hn, rfl, rfl⟩
      simp only [Signature, hn]

/-- C2: for an accumulating call (`beta ≠ 0`), `PreTuning` returns a proxy
whose `c` is a freshly allocated address — distinct from the `c` of the caller
and from every previously live block — while every other field (transpose
chars, dimensions, `alpha`, `a`, `lda`, `b`, `ldb`, `beta`, `ldc`) equals
the field of the caller; so a candidate writing through the proxy output pointer
never writes through the caller-visible output address. -/
theorem preTuning_proxy_redirects_output (sizeofT : ℕ) (p : GemmParams)
    (st : AllocState) (hbeta : IsZero p.beta = false) (hwf : st.WF)
    (hc : p.c < st.next) :
    (PreTuning sizeofT p st).1.c ≠ p.c ∧
    (∀ blk ∈ st.blocks, blk.1 ≠ (PreTuning sizeofT p st).1.c) ∧
    (PreTuning sizeofT p st).1.transa = p.transa ∧
    (PreTuning sizeofT p st).1.transb = p.transb ∧
    (PreTuning sizeofT p st).1.m = p.m ∧
    (PreTuning sizeofT p st).1.n = p.n ∧
    (PreTuning sizeofT p st).1.k = p.k ∧
    (PreTuning sizeofT p st).1.alpha = p.alpha ∧
    (PreTuning sizeofT p st).1.a = p.a ∧
    (PreTuning sizeofT p st).1.lda = p.lda ∧
    (PreTuning sizeofT p st).1.b = p.b ∧
    (PreTuning sizeofT p st).1.ldb = p.ldb ∧
    (PreTuning sizeofT p st).1.beta = p.beta ∧
    (PreTuning sizeofT p st).1.ldc = p.ldc := by
  have hpre : (PreTuning sizeofT p st).1 = { p with c := st.next } := by
    simp [PreTuning, hbeta, rawAlloc]
  rw [hpre]
  refine ⟨by simp; omega, ?_, rfl, rfl, rfl, rfl, rfl, rfl, rfl, rfl, rfl, rfl, rfl, rfl⟩
  intro blk hblk
  have := hwf blk hblk
  simp
  omega

theorem preTuning_proxy_redirects_output_witness :
    (PreTuning 4 gemmParamsSmall { next := 301, blocks := [(300, 8)], objs := 0 }).1.c ≠
      gemmParamsSmall.c ∧
    (∀ blk ∈ ({ next := 301, blocks := [(300, 8)], objs := 0 } : AllocState).blocks,
      blk.1 ≠
        (PreTuning 4 gemmParamsSmall
          { next := 301, blocks := [(300, 8)], objs := 0 }).1.c) ∧
    (PreTuning 4 gemmParamsSmall { next := 301, blocks := [(300, 8)], objs := 0 }).1.transa =
      gemmParamsSmall.transa ∧
    (PreTuning 4 gemmParamsSmall { next := 301, blocks := [(300, 8)], objs := 0 }).1.transb =
      gemmParamsSmall.transb ∧
    (PreTuning 4 gemmParamsSmall { next := 301, blocks := [(300, 8)], objs := 0 }).1.m =
      gemmParamsSmall.m ∧
    (PreTuning 4 gemmParamsSmall { next := 301, blocks := [(300, 8)], objs := 0 }).1.n =
      gemmParamsSmall.n ∧
    (PreTuning 4 gemmParamsSmall { next := 301, blocks := [(300, 8)], objs := 0 }).1.k =
      gemmParamsSmall.k ∧
    (PreTuning 4 gemmParamsSmall { next := 301, blocks := [(300, 8)], objs := 0 }).1.alpha =
      gemmParamsSmall.alpha ∧
    (PreTuning 4 gemmParamsSmall { next := 301, blocks := [(300, 8)], objs := 0 }).1.a =
      gemmParamsSmall.a ∧
    (PreTuning 4 gemmParamsSmall { next := 301, blocks := [(300, 8)], objs := 0 }).1.lda =
      gemmParamsSmall.lda ∧
    (PreTuning 4 gemmParamsSmall { next := 301, blocks := [(300, 8)], objs := 0 }).1.b =
      gemmParamsSmall.b ∧
    (PreTuning 4 gemmParamsSmall { next := 301, blocks := [(300, 8)], objs := 0 }).1.ldb =
      gemmParamsSmall.ldb ∧
    (PreTuning 4 gemmParamsSmall { next := 301, blocks := [(300, 8)], objs := 0 }).1.beta =
      gemmParamsSmall.beta ∧
    (PreTuning 4 gemmParamsSmall { next := 301, blocks := [(300, 8)], objs := 0 }).1.ldc =
      gemmParamsSmall.ldc :=
  preTuning_proxy_redirects_output 4 gemmParamsSmall
    { next := 301, blocks := [(300, 8)], objs := 0 } (by decide)
    (by intro blk hblk; simp at hblk; subst hblk; decide) (by decide)

/-- C5: for an accumulating call (`beta ≠ 0`), running `PostTuning` on the
proxy and state produced by `PreTuning` removes exactly the scratch block
`PreTuning` allocated and destroys exactly the proxy object it created: the
live-block list and the live proxy-object count return to their pre-call
values, and the address freed (the `c` of the proxy) is not the output
address of the caller, so the buffer of the caller is never freed. -/
theorem postTuning_frees_exactly_scratch (sizeofT : ℕ) (p : GemmParams)
    (st : AllocState) (hbeta : IsZero p.beta = false) (hwf : st.WF)
    (hc : p.c < st.next) :
    (PostTuning (PreTuning sizeofT p st).1 (PreTuning sizeofT p st).2).blocks =
      st.blocks ∧
    (PostTuning (PreTuning sizeofT p st).1 (PreTuning sizeofT p st).2).objs =
      st.objs ∧
    (PreTuning sizeofT p st).1.c ≠ p.c := by
  have hpre : PreTuning sizeofT p st =
      ({ p with c := st.next },
        { next := st.next + 1
          blocks := (st.next, preTuningAllocBytes sizeofT p) :: st.blocks
          objs := st.objs + 1 }) := by
    simp [PreTuning, hbeta, rawAlloc]
  rw [hpre]
  refine ⟨?_, ?_, by simp; omega⟩
  · show (PostTuning { p with c := st.next } _).blocks = st.blocks
    simp only [PostTuning, rawDelete, hbeta, Bool.not_false, if_true]
    simp only [List.filter_cons]
    have hhead : ((st.next, preTuningAllocBytes sizeofT p).1 != st.next) = false := by
      simp
    rw [hhead]
    simp only [Bool.false_eq_true, if_false]
    apply List.filter_eq_self.mpr
    intro blk hblk
    have := hwf blk hblk
    simp
    omega
  · show (PostTuning { p with c := st.next } _).objs = st.objs
    simp [PostTuning, hbeta, rawDelete]

theorem postTuning_frees_exactly_scratch_witness :
    (PostTuning
        (PreTuning 4 gemmParamsSmall
          { next := 301, blocks := [(300, 8)], objs := 0 }).1
        (PreTuning 4 gemmParamsSmall
          { next := 301, blocks := [(300, 8)], objs := 0 }).2).blocks =
      ({ next := 301, blocks := [(300, 8)], objs := 0 } : AllocState).blocks ∧
    (PostTuning
        (PreTuning 4 gemmParamsSmall
          { next := 301, blocks := [(300, 8)], objs := 0 }).1
        (PreTuning 4 gemmParamsSmall
          { next := 301, blocks := [(300, 8)], objs := 0 }).2).objs =
      ({ next := 301, blocks := [(300, 8)], objs := 0 } : AllocState).objs ∧
    (PreTuning 4 gemmParamsSmall
        { next := 301, blocks := [(300, 8)], objs := 0 }).1.c ≠
      gemmParamsSmall.c :=
  postTuning_frees_exactly_scratch 4 gemmParamsSmall
    { next := 301, blocks := [(300, 8)], objs := 0 } (by decide)
    (by intro blk hblk; simp at hblk; subst hblk; decide) (by decide)

theorem findEntry_append_of_hasKey (m l : ValidatorMap) (key : String)
    (h : hasKey m key = true) : findEntry key (m ++ l) = findEntry key m := by
  induction m with
  | nil => simp [hasKey] at h
  | cons kv tl ih =>
    by_cases hk : (kv.1 == key) = true
    · simp [findEntry, List.find?_cons_of_pos, hk]
    · have htl : hasKey tl key = true := by
        simp only [hasKey, List.any_cons, Bool.or_eq_true] at h
        rcases h with h | h
        · exact absurd h hk
        · exact h
      have hstep : ∀ ll : List (String × ValidatorEntry),
          List.find? (fun kv : String × ValidatorEntry => kv.1 == key) (kv :: ll) =
            List.find? (fun kv : String × ValidatorEntry => kv.1 == key) ll :=
        fun ll => List.find?_cons_of_neg ll hk
      simp only [findEntry, List.cons_append]
      rw [hstep, hstep]
      simpa [findEntry] using ih htl

theorem hasKey_append_left (m l : ValidatorMap) (key : String)
    (h : hasKey m key = true) : hasKey (m ++ l) key = true := by
  simp only [hasKey, List.any_append, Bool.or_eq_true]
  exact Or.inl h

theorem findEntry_registerIfAbsent_of_hasKey (k' : String) (e : ValidatorEntry)
    (snapshot m : ValidatorMap) (key : String) (h : hasKey m key = true) :
    findEntry key (registerIfAbsentInSnapshot k' e snapshot m) = findEntry key m ∧
    hasKey (registerIfAbsentInSnapshot k' e snapshot m) key = true := by
  unfold registerIfAbsentInSnapshot RegisterValidator
  split
  · exact ⟨rfl, h⟩
  · split
    · exact ⟨rfl, h⟩
    · exact ⟨findEntry_append_of_hasKey m _ key h, hasKey_append_left m _ key h⟩

/-- C8: construction registers a version validator for a key only when no
validator for that key is already registered — if `key` is already present
in the validator map, the registrations done by the constructor leave the entry
registered for `key` unchanged (duplicate registration is a no-op for that
key). -/
theorem ctor_validator_first_registration_wins
    (rocmVer rocblasVer hipblasltVer key : String) (m : ValidatorMap)
    (h : hasKey m key = true) :
    findEntry key (ctorRegisterValidators rocmVer rocblasVer hipblasltVer m) =
      findEntry key m := by
  unfold ctorRegisterValidators
  obtain ⟨h1e, h1k⟩ := findEntry_registerIfAbsent_of_hasKey "ROCM_VERSION"
    (mkVersionValidator rocmVer) m m key h
  obtain ⟨h2e, h2k⟩ := findEntry_registerIfAbsent_of_hasKey "ROCBLAS_VERSION"
    (mkVersionValidator rocblasVer) m _ key h1k
  obtain ⟨h3e, _⟩ := findEntry_registerIfAbsent_of_hasKey "HIPBLASLT_VERSION"
    (mkVersionValidator hipblasltVer) m _ key h2k
  rw [h3e, h2e, h1e]

theorem ctor_validator_first_registration_wins_witness :
    findEntry "ROCM_VERSION"
        (ctorRegisterValidators "6.0" "4.0.0-rc" "0.6.0-dev"
          [("ROCM_VERSION", mkVersionValidator "5.7")]) =
      findEntry "ROCM_VERSION" [("ROCM_VERSION", mkVersionValidator "5.7")] :=
  ctor_validator_first_registration_wins "6.0" "4.0.0-rc" "0.6.0-dev"
    "ROCM_VERSION" [("ROCM_VERSION", mkVersionValidator "5.7")] (by rfl)

/-- C9: each validator the constructor registers is an exact-match version
validator: its producer returns the captured version string on every call,
and its predicate returns `OK` on a stored value iff that value is exactly
string-equal to the captured version, `FAIL` otherwise; and on an initially
empty validator map the constructor registers precisely such entries for
the three version keys. -/
theorem ctor_validators_exact_match
    (version s rocmVer rocblasVer hipblasltVer : String) (u : Unit) :
    (mkVersionValidator version).producer u = version ∧
    ((mkVersionValidator version).check s = TuningStatus.OK ↔ s = version) ∧
    ((mkVersionValidator version).check s = TuningStatus.OK ∨
      (mkVersionValidator version).check s = TuningStatus.FAIL) ∧
    ctorRegisterValidators rocmVer rocblasVer hipblasltVer [] =
      [("ROCM_VERSION", mkVersionValidator rocmVer),
        ("ROCBLAS_VERSION", mkVersionValidator rocblasVer),
        ("HIPBLASLT_VERSION", mkVersionValidator hipblasltVer)] := by
  refine ⟨rfl, ?_, ?_, by rfl⟩
  · rcases eq_or_ne version s with hv | hv
    · simp [mkVersionValidator, hv]
    · simp only [mkVersionValidator, beq_iff_eq, if_neg hv]
      constructor
      · intro hfa
        exact absurd hfa (by simp)
      · intro hs
        exact absurd hs.symm hv
  · rcases eq_or_ne version s with hv | hv
    · exact Or.inl (by simp [mkVersionValidator, hv])
    · exact Or.inr (by simp [mkVersionValidator, hv])

end TunableGemm
